import Mathlib

/-!
Shallow embedding of the room-mapping-cache handler
(internal/handler: normalizeRoomName, getAlternateHotelID, parseRooms,
dedupStringsInPlace, fetchRoomsForHotel, GetRoomMappings,
GetRoomMappingsBatch) together with proofs about the claims of the
specification.  Go strings are modelled as lists of characters
(runes); the Redis store is modelled as a pure function from keys to
per-key HGetAll replies.
-/

namespace RoomMapping

/-- Go strings, modelled as lists of runes. -/
abbrev GoStr := List Char

/-- The character class matched by the Go regular expression
class backslash-s used in wsRe, namely tab, newline, form feed,
carriage return and space. -/
def isWsRe (c : Char) : Bool :=
  c = '\t' || c = '\n' || c = '\x0c' || c = '\r' || c = ' '

/-- unicode.IsSpace, the White_Space property, as consulted by
strings.TrimSpace: U+0009..U+000D, space, NEL, NBSP and the
Unicode space separators. -/
def isUnicodeSpace (c : Char) : Bool :=
  (0x09 ≤ c.toNat && c.toNat ≤ 0x0d) || c = ' ' || c = '\x85' || c = '\xA0' ||
  c.toNat = 0x1680 || (0x2000 ≤ c.toNat && c.toNat ≤ 0x200a) ||
  c.toNat = 0x2028 || c.toNat = 0x2029 || c.toNat = 0x202f ||
  c.toNat = 0x205f || c.toNat = 0x3000

/-- Left half of strings.TrimSpace. -/
def trimLeft (s : GoStr) : GoStr := s.dropWhile isUnicodeSpace

/-- Right half of strings.TrimSpace. -/
def trimRight (s : GoStr) : GoStr := (s.reverse.dropWhile isUnicodeSpace).reverse

/-- strings.TrimSpace. -/
def trimSpace (s : GoStr) : GoStr := trimRight (trimLeft s)

/-- ASCII fragment of the simple case mapping applied by
strings.ToLower (non-ASCII case pairs are elided from the model;
they do not affect any claim). -/
def goToLower (c : Char) : Char :=
  if 65 ≤ c.toNat && c.toNat ≤ 90 then Char.ofNat (c.toNat + 32) else c

/-- The six characters rewritten to a space by punctReplacer. -/
def isPunctReplaced (c : Char) : Bool :=
  c = '-' || c = ',' || c = '.' || c = '/' || c = '(' || c = ')'

/-- punctReplacer.Replace: every replacement pair is a single
character mapped to a single space, so the replacer is a character
map. -/
def punctReplace (s : GoStr) : GoStr :=
  s.map (fun c => if isPunctReplaced c then ' ' else c)

/-- Worker for wsRe.ReplaceAllString(s, " "): the flag records
whether the previous character belonged to a run already replaced. -/
def collapseWsAux : Bool → GoStr → GoStr
  | _, [] => []
  | prevWs, c :: rest =>
    if isWsRe c then
      if prevWs then collapseWsAux true rest
      else ' ' :: collapseWsAux true rest
    else c :: collapseWsAux false rest

/-- wsRe.ReplaceAllString(s, " "): each maximal run of characters in
the backslash-s class becomes one space. -/
def collapseWs (s : GoStr) : GoStr := collapseWsAux false s

/-- normalizeRoomName: lower-case the trimmed name, replace the six
punctuation characters by spaces, collapse whitespace runs, and trim
again. -/
def normalizeRoomName (name : GoStr) : GoStr :=
  let s1 := (trimSpace name).map goToLower
  let s2 := punctReplace s1
  let s3 := collapseWs s2
  trimSpace s3

/-- getAlternateHotelID: trim, then strip a leading marker if
present (strings.HasPrefix and strings.TrimPrefix with the one
character marker), else prepend the marker. -/
def getAlternateHotelID (idStr : GoStr) : GoStr :=
  let t := trimSpace idStr
  if t.head? = some '#' then t.tail else '#' :: t

/-- The Sprintf key template room_map:\x7b%s\x7d. -/
def roomMapKey (hotelID : GoStr) : GoStr :=
  ("room_map:\x7b").toList ++ hotelID ++ ("\x7d").toList

/-- Loop of dedupStringsInPlace: seen is the membership set, out the
slice reused in place. -/
def dedupLoop (seen : List GoStr) (out : List GoStr) : List GoStr → List GoStr
  | [] => out
  | s :: rest =>
    if s = [] then dedupLoop seen out rest
    else if s ∈ seen then dedupLoop seen out rest
    else dedupLoop (s :: seen) (out ++ [s]) rest

/-- dedupStringsInPlace: drop empty strings and duplicates, keeping
first occurrences in order. -/
def dedupStringsInPlace (l : List GoStr) : List GoStr := dedupLoop [] [] l

/-- Recursive restatement of the deduplication contract given in the
specification: keep the first occurrence of every non-empty string,
in order; used to compare the imperative loop against the spec. -/
def dedupFirstSpec : List GoStr → List GoStr
  | [] => []
  | s :: rest =>
    if s = [] then dedupFirstSpec rest
    else s :: (dedupFirstSpec rest).filter (fun b => b ≠ s)

/-- Go string comparison with <, byte-wise lexicographic; on UTF-8
this agrees with rune-wise lexicographic comparison. -/
def goStrLt : GoStr → GoStr → Bool
  | [], [] => false
  | [], _ :: _ => true
  | _ :: _, [] => false
  | a :: as, b :: bs =>
    if a.toNat < b.toNat then true
    else if b.toNat < a.toNat then false
    else goStrLt as bs

/-! JSON decoding, modelling encoding/json.Unmarshal of a stored
field value into struct roomValue, whose single field ID has type
json.Number and tag id. -/

/-- JSON values; number tokens keep their literal spelling, exactly
as json.Number does. -/
inductive Jval where
  | jnull
  | jbool (b : Bool)
  | jnum (lit : GoStr)
  | jstr (s : GoStr)
  | jarr (elems : List Jval)
  | jobj (fields : List (GoStr × Jval))

/-- JSON insignificant whitespace. -/
def isJsonWs (c : Char) : Bool := c = ' ' || c = '\t' || c = '\n' || c = '\r'

/-- Skip insignificant whitespace. -/
def skipJsonWs (s : GoStr) : GoStr := s.dropWhile isJsonWs

/-- ASCII decimal digit. -/
def isDigit (c : Char) : Bool := '0' ≤ c && c ≤ '9'

/-- ASCII hexadecimal digit. -/
def isHexDigit (c : Char) : Bool :=
  isDigit c || ('a' ≤ c && c ≤ 'f') || ('A' ≤ c && c ≤ 'F')

/-- Value of a hexadecimal digit. -/
def hexVal (c : Char) : Nat :=
  if isDigit c then c.toNat - ('0').toNat
  else if 'a' ≤ c then c.toNat - ('a').toNat + 10
  else c.toNat - ('A').toNat + 10

/-- Single-character escapes of the JSON string grammar. -/
def jsonEscape (c : Char) : Option Char :=
  if c = '"' then some '"'
  else if c = '\\' then some '\\'
  else if c = '/' then some '/'
  else if c = 'b' then some '\x08'
  else if c = 'f' then some '\x0c'
  else if c = 'n' then some '\n'
  else if c = 'r' then some '\r'
  else if c = 't' then some '\t'
  else none

/-- Scan the remainder of a JSON string after the opening quote,
returning the decoded contents and the input after the closing
quote.  Surrogate-pair recombination of consecutive \u escapes is
elided from the model; unescaped control characters are rejected as
in the Go scanner. -/
def scanStringRest : GoStr → Option (GoStr × GoStr)
  | [] => none
  | c :: rest =>
    if c = '"' then some ([], rest)
    else if c = '\\' then
      match rest with
      | 'u' :: h1 :: h2 :: h3 :: h4 :: rest4 =>
        if isHexDigit h1 && isHexDigit h2 && isHexDigit h3 && isHexDigit h4 then
          match scanStringRest rest4 with
          | some (s, r) =>
            some (Char.ofNat ((((hexVal h1) * 16 + hexVal h2) * 16 + hexVal h3) * 16 + hexVal h4) :: s, r)
          | none => none
        else none
      | e :: rest2 =>
        match jsonEscape e with
        | some c2 =>
          match scanStringRest rest2 with
          | some (s, r) => some (c2 :: s, r)
          | none => none
        | none => none
      | [] => none
    else if c.toNat < 0x20 then none
    else
      match scanStringRest rest with
      | some (s, r) => some (c :: s, r)
      | none => none

/-- Scan the integer part of a JSON number: 0, or a nonzero digit
followed by digits. -/
def scanInt : GoStr → Option (GoStr × GoStr)
  | [] => none
  | c :: rest =>
    if c = '0' then some (['0'], rest)
    else if isDigit c then some (c :: rest.takeWhile isDigit, rest.dropWhile isDigit)
    else none

/-- Scan an optional fraction part. -/
def scanFrac (s : GoStr) : Option (GoStr × GoStr) :=
  match s with
  | '.' :: rest =>
    let ds := rest.takeWhile isDigit
    if ds = [] then none else some ('.' :: ds, rest.dropWhile isDigit)
  | _ => some ([], s)

/-- Scan an optional exponent part. -/
def scanExp (s : GoStr) : Option (GoStr × GoStr) :=
  match s with
  | c :: rest =>
    if c = 'e' || c = 'E' then
      match rest with
      | sgn :: rest2 =>
        if sgn = '+' || sgn = '-' then
          let ds := rest2.takeWhile isDigit
          if ds = [] then none else some (c :: sgn :: ds, rest2.dropWhile isDigit)
        else
          let ds := rest.takeWhile isDigit
          if ds = [] then none else some (c :: ds, rest.dropWhile isDigit)
      | [] => none
    else some ([], s)
  | [] => some ([], s)

/-- Scan a JSON number token, keeping its literal. -/
def scanNumber (s : GoStr) : Option (GoStr × GoStr) :=
  let p := match s with
    | '-' :: r => (['-'], r)
    | _ => (([] : GoStr), s)
  match scanInt p.2 with
  | none => none
  | some (ip, r1) =>
    match scanFrac r1 with
    | none => none
    | some (fp, r2) =>
      match scanExp r2 with
      | none => none
      | some (ep, r3) => some (p.1 ++ ip ++ fp ++ ep, r3)

mutual

/-- Fueled recursive-descent parser for one JSON value; the fuel
dominates the nesting depth (the Go decoder likewise enforces a
maximum depth). -/
def parseJval : Nat → GoStr → Option (Jval × GoStr)
  | 0, _ => none
  | Nat.succ fuel, s0 =>
    match skipJsonWs s0 with
    | '"' :: rest =>
      match scanStringRest rest with
      | some (str, r) => some (Jval.jstr str, r)
      | none => none
    | '[' :: rest =>
      match skipJsonWs rest with
      | ']' :: r2 => some (Jval.jarr [], r2)
      | r1 =>
        match parseJarrElems fuel r1 with
        | some (es, r2) => some (Jval.jarr es, r2)
        | none => none
    | '\x7b' :: rest =>
      match skipJsonWs rest with
      | '\x7d' :: r2 => some (Jval.jobj [], r2)
      | r1 =>
        match parseJobjFields fuel r1 with
        | some (fs, r2) => some (Jval.jobj fs, r2)
        | none => none
    | 't' :: 'r' :: 'u' :: 'e' :: rest => some (Jval.jbool true, rest)
    | 'f' :: 'a' :: 'l' :: 's' :: 'e' :: rest => some (Jval.jbool false, rest)
    | 'n' :: 'u' :: 'l' :: 'l' :: rest => some (Jval.jnull, rest)
    | s =>
      match scanNumber s with
      | some (lit, r) => some (Jval.jnum lit, r)
      | none => none

/-- Comma-separated JSON array elements up to the closing bracket. -/
def parseJarrElems : Nat → GoStr → Option (List Jval × GoStr)
  | 0, _ => none
  | Nat.succ fuel, s =>
    match parseJval fuel s with
    | none => none
    | some (v, r) =>
      match skipJsonWs r with
      | ',' :: r2 =>
        match parseJarrElems fuel r2 with
        | some (vs, r3) => some (v :: vs, r3)
        | none => none
      | ']' :: r2 => some ([v], r2)
      | _ => none

/-- Comma-separated JSON object members up to the closing brace. -/
def parseJobjFields : Nat → GoStr → Option (List (GoStr × Jval) × GoStr)
  | 0, _ => none
  | Nat.succ fuel, s =>
    match skipJsonWs s with
    | '"' :: rest =>
      match scanStringRest rest with
      | none => none
      | some (key, r1) =>
        match skipJsonWs r1 with
        | ':' :: r2 =>
          match parseJval fuel r2 with
          | none => none
          | some (v, r3) =>
            match skipJsonWs r3 with
            | ',' :: r4 =>
              match parseJobjFields fuel r4 with
              | some (fs, r5) => some ((key, v) :: fs, r5)
              | none => none
            | '\x7d' :: r4 => some ([(key, v)], r4)
            | _ => none
        | _ => none
    | _ => none

end

/-- Parse a complete JSON document: one value followed only by
whitespace.  The fuel is ample for any document of this length. -/
def jsonParse (s : GoStr) : Option Jval :=
  match parseJval (2 * s.length + 2) s with
  | some (v, rest) => if skipJsonWs rest = [] then some v else none
  | none => none

/-- strings.EqualFold of an object key against the field tag id
(ASCII fold). -/
def eqFoldID (k : GoStr) : Bool := k.map goToLower = ['i', 'd']

/-- isValidNumber of encoding/json: the whole string matches the
JSON number grammar. -/
def isValidJsonNumber (s : GoStr) : Bool :=
  match scanNumber s with
  | some (_, rest) => rest = []
  | none => false

/-- Struct-directed decoding of the object members into roomValue:
members matching the tag id case-insensitively assign the ID field
in order (a JSON null leaves it unchanged); a JSON number assigns
its literal; a JSON string assigns its contents when they spell a
valid JSON number (the json.Number string quirk of literalStore)
and is an error otherwise; a member of any other JSON kind under
that key is a type error; unknown keys are skipped. -/
def roomValueFields : List (GoStr × Jval) → Option GoStr → Option (Option GoStr)
  | [], acc => some acc
  | (k, v) :: rest, acc =>
    if eqFoldID k then
      match v with
      | Jval.jnum lit => roomValueFields rest (some lit)
      | Jval.jstr s =>
        if isValidJsonNumber s then roomValueFields rest (some s) else none
      | Jval.jnull => roomValueFields rest acc
      | _ => none
    else roomValueFields rest acc

/-- json.Unmarshal(blob, and-of rv): none models a non-nil error;
some acc models success with acc the literal assigned to rv.ID, if
any.  A top-level null succeeds leaving the struct untouched; any
other non-object document is a type error. -/
def unmarshalRoomValue (blob : GoStr) : Option (Option GoStr) :=
  match jsonParse blob with
  | some (Jval.jobj fields) => roomValueFields fields none
  | some Jval.jnull => some none
  | _ => none

/-- Digits-to-value accumulator of strconv.ParseInt. -/
def digitsVal : GoStr → Nat → Option Nat
  | [], acc => some acc
  | c :: rest, acc =>
    if isDigit c then digitsVal rest (acc * 10 + (c.toNat - ('0').toNat)) else none

/-- strconv.ParseInt(s, 10, 64): optional sign, at least one digit,
int64 range check. -/
def goParseInt64 (s : GoStr) : Option Int :=
  let p := match s with
    | '-' :: r => (true, r)
    | '+' :: r => (false, r)
    | _ => (false, s)
  match p.2 with
  | [] => none
  | _ =>
    match digitsVal p.2 0 with
    | none => none
    | some n =>
      if p.1 then (if n ≤ 2 ^ 63 then some (-(n : Int)) else none)
      else (if n ≤ 2 ^ 63 - 1 then some (n : Int) else none)

/-- rv.ID.Int64() after the unmarshal: none models err being non-nil
on either step.  An unassigned ID is the empty json.Number, on which
ParseInt fails. -/
def decodeRoomID (blob : GoStr) : Option Int :=
  match unmarshalRoomValue blob with
  | none => none
  | some none => goParseInt64 []
  | some (some lit) => goParseInt64 lit

/-! The room parser and the two HTTP handlers. -/

/-- A resolved room record. -/
structure Room where
  Name : GoStr
  ID : Int
deriving DecidableEq

/-- The guardrail constant of parseRooms. -/
def maxRoomsToProcess : Nat := 2000

/-- The range loop of parseRooms: count is the number of rooms
appended so far; the loop breaks once count reaches the guardrail,
skips fields whose value fails to decode or decodes to id zero, and
otherwise appends the normalized name with the id. -/
def roomsLoop : Nat → List (GoStr × GoStr) → List Room
  | _, [] => []
  | count, (roomName, roomJSON) :: rest =>
    if maxRoomsToProcess ≤ count then []
    else
      match decodeRoomID roomJSON with
      | none => roomsLoop count rest
      | some i =>
        if i = 0 then roomsLoop count rest
        else { Name := normalizeRoomName roomName, ID := i } :: roomsLoop (count + 1) rest

/-- The comparison handed to sort.Slice: strictly increasing name. -/
def roomLess (a b : Room) : Prop := goStrLt a.Name b.Name = true

instance : DecidableRel roomLess := fun a b =>
  inferInstanceAs (Decidable (goStrLt a.Name b.Name = true))

/-- parseRooms: decode the field map (hashData, modelled with the
iteration order made explicit, since Go randomizes map range order)
and sort the result by name.  sort.Slice is modelled by insertion
sort on the same comparison; like sort.Slice it is not required to
be stable, and ties keep an order derived from the iteration
order. -/
def parseRooms (hashData : List (GoStr × GoStr)) : List Room :=
  List.insertionSort roomLess (roomsLoop 0 hashData)

/-- One hotel's stored field map, in the iteration order the store
client happens to yield. -/
abbrev FieldMap := List (GoStr × GoStr)

/-- Result of one HGetAll: a Redis error, or the field map (a key
with no hash yields ok with an empty map). -/
abbrev StoreReply := Except GoStr FieldMap

/-- The store, modelled as a pure map from key to per-key reply;
each HGetAll command of a pipeline reads from it. -/
abbrev Store := GoStr → StoreReply

/-- The fallback tail of fetchRoomsForHotel: fetch the alternate
key; a non-nil error is returned to the caller, otherwise the parse
of whatever map came back. -/
def fetchFallback (store : Store) (hotelID : GoStr) : Except GoStr (List Room) :=
  match store (roomMapKey (getAlternateHotelID hotelID)) with
  | Except.error e => Except.error e
  | Except.ok hashData => Except.ok (parseRooms hashData)

/-- fetchRoomsForHotel: return the parse of the primary map when the
primary fetch had no error and a non-empty map; in every other case
run the fallback fetch. -/
def fetchRoomsForHotel (store : Store) (hotelID : GoStr) : Except GoStr (List Room) :=
  match store (roomMapKey hotelID) with
  | Except.ok hashData =>
    if 0 < hashData.length then Except.ok (parseRooms hashData)
    else fetchFallback store hotelID
  | Except.error _ => fetchFallback store hotelID

/-- Outcome of the single-hotel HTTP handler. -/
inductive SingleResponse where
  | badRequest (msg : GoStr)
  | serverError (msg : GoStr)
  | ok (rooms : List Room)
deriving DecidableEq

/-- GetRoomMappings: reject an empty path parameter, surface a fetch
error as a 500, otherwise answer 200 with the rooms. -/
def GetRoomMappings (store : Store) (hotelID : GoStr) : SingleResponse :=
  if hotelID = [] then SingleResponse.badRequest (("hotel_id is required").toList)
  else
    match fetchRoomsForHotel store hotelID with
    | Except.error _ => SingleResponse.serverError (("failed to fetch room mappings").toList)
    | Except.ok rooms => SingleResponse.ok rooms

/-- The keys enqueued into the single pipeline, in loop order: for
each deduplicated identifier, the HGetAll of its primary key then of
its fallback key. -/
def batchPipelineKeys (hotelIDs : List GoStr) : List GoStr :=
  hotelIDs.flatMap (fun hid => [roomMapKey hid, roomMapKey (getAlternateHotelID hid)])

/-- The response-building loop of the batch handler, walking the
keys slice together with the primary and fallback command results
gathered from the one pipeline execution: primary error or empty
map falls back to the fallback result; fallback error or empty map
yields the empty room list. -/
def batchAssemble : List GoStr → List StoreReply → List StoreReply → List (GoStr × List Room)
  | [], _, _ => []
  | _ :: _, [], _ => []
  | _ :: _, _ :: _, [] => []
  | hid :: ids, p :: ps, f :: fs =>
    match p with
    | Except.ok hashData =>
      if hashData.length = 0 then
        (match f with
         | Except.ok hashData2 =>
           if hashData2.length = 0 then (hid, ([] : List Room)) :: batchAssemble ids ps fs
           else (hid, parseRooms hashData2) :: batchAssemble ids ps fs
         | Except.error _ => (hid, ([] : List Room)) :: batchAssemble ids ps fs)
      else (hid, parseRooms hashData) :: batchAssemble ids ps fs
    | Except.error _ =>
      (match f with
       | Except.ok hashData2 =>
         if hashData2.length = 0 then (hid, ([] : List Room)) :: batchAssemble ids ps fs
         else (hid, parseRooms hashData2) :: batchAssemble ids ps fs
       | Except.error _ => (hid, ([] : List Room)) :: batchAssemble ids ps fs)

/-- Successful outcome of the batch handler: the trace lists the
store round-trips issued, one entry per pipeline Exec holding that
pipeline's enqueued keys, and hotels is the response map (written as
an association list in insertion order; its keys are pairwise
distinct). -/
structure BatchOk where
  trace : List (List GoStr)
  hotels : List (GoStr × List Room)
deriving DecidableEq

/-- GetRoomMappingsBatch: none as body models a request whose
hotel_ids field is missing or unbindable.  After validation the
handler deduplicates, enqueues both keys per identifier into one
pipeline, executes it once (a batch-level Exec error is only logged,
each command result is inspected individually), and assembles the
response. -/
def GetRoomMappingsBatch (store : Store) (body : Option (List GoStr)) :
    Except GoStr BatchOk :=
  match body with
  | none => Except.error (("invalid request: hotel_ids array is required").toList)
  | some hotelIDsReq =>
    if hotelIDsReq.length = 0 || 100 < hotelIDsReq.length then
      Except.error (("hotel_ids must contain 1..100 items").toList)
    else
      let hotelIDs := dedupStringsInPlace hotelIDsReq
      let primaryReplies := hotelIDs.map (fun hid => store (roomMapKey hid))
      let fallbackReplies := hotelIDs.map (fun hid => store (roomMapKey (getAlternateHotelID hid)))
      Except.ok
        { trace := [batchPipelineKeys hotelIDs]
          hotels := batchAssemble hotelIDs primaryReplies fallbackReplies }

/-- Per-identifier reconciliation as the specification words it, for
comparison with the loop: use the primary sub-result if it succeeded
with a non-empty map, else the alternate sub-result if it succeeded
with a non-empty map, else the empty room list. -/
def reconcileFallbackSpec : StoreReply → List Room
  | Except.ok m => if m.length = 0 then [] else parseRooms m
  | Except.error _ => []

/-- See reconcileFallbackSpec. -/
def reconcileSpec : StoreReply → StoreReply → List Room
  | Except.ok m, f => if m.length = 0 then reconcileFallbackSpec f else parseRooms m
  | Except.error _, f => reconcileFallbackSpec f

/-! Auxiliary definitions used only to state and prove the claims. -/

/-- Intermediate form of the deduplication loop, with the membership
set explicit and the accumulator factored out. -/
def dedupSeenSpec (seen : List GoStr) : List GoStr → List GoStr
  | [] => []
  | s :: rest =>
    if s = [] then dedupSeenSpec seen rest
    else if s ∈ seen then dedupSeenSpec seen rest
    else s :: dedupSeenSpec (s :: seen) rest

/-- Whether parseRooms keeps a field with this value blob: the blob
decodes and the id is nonzero. -/
def decodeKeeps (blob : GoStr) : Bool :=
  match decodeRoomID blob with
  | some i => decide (i ≠ 0)
  | none => false

instance {ε α : Type} [DecidableEq ε] [DecidableEq α] : DecidableEq (Except ε α) :=
  fun a b =>
  match a, b with
  | Except.ok x, Except.ok y =>
    if h : x = y then isTrue (by rw [h]) else isFalse (fun hc => h (Except.ok.inj hc))
  | Except.error x, Except.error y =>
    if h : x = y then isTrue (by rw [h]) else isFalse (fun hc => h (Except.error.inj hc))
  | Except.ok _, Except.error _ => isFalse (fun hc => Except.noConfusion hc)
  | Except.error _, Except.ok _ => isFalse (fun hc => Except.noConfusion hc)

/-- A store for concrete checks: the primary key of hotel 42 holds
one field, every other key an empty hash. -/
def storeA : Store := fun k =>
  if k = roomMapKey (("42").toList) then
    Except.ok [(("Ocean View").toList, ("\x7b\"id\":5\x7d").toList)]
  else Except.ok []

/-- Store used by concrete checks of claims three and nine: the
primary key of hotel 99 holds an empty hash, every other key fails
with a communication error. -/
def storeC3 : Store := fun k =>
  if k = roomMapKey (("99").toList) then Except.ok []
  else Except.error (("dial tcp: i/o timeout").toList)

/-- Store whose primary key for hotel 7 errors while the alternate
key holds data. -/
def storeC3b : Store := fun k =>
  if k = roomMapKey (("#7").toList) then
    Except.ok [(("Suite").toList, ("\x7b\"id\":9\x7d").toList)]
  else Except.error (("dial tcp: i/o timeout").toList)

/-- Two raw field names that normalize to the same canonical name
with different ids, in one iteration order of the same hash. -/
def collisionFields : FieldMap :=
  [(("Deluxe Room").toList, ("\x7b\"id\":101\x7d").toList),
   (("deluxe  room").toList, ("\x7b\"id\":102\x7d").toList)]

/-! Concrete checks of the embedding against the behaviour the
source exhibits. -/

example : decodeRoomID (("\x7b\"id\":101\x7d").toList) = some 101 := by decide

example : decodeRoomID (("\x7b\"id\":0\x7d").toList) = some 0 := by decide

example : decodeRoomID (("not json").toList) = none := by decide

example : decodeRoomID (("\x7b\"id\":\"x\"\x7d").toList) = none := by decide

example : decodeRoomID (("\x7b\"other\":5\x7d").toList) = none := by decide

example : decodeRoomID (("\x7b\"ID\":7\x7d").toList) = some 7 := by decide

example : decodeRoomID (("\x7b\"id\":-3\x7d").toList) = some (-3) := by decide

example : decodeRoomID (("\x7b\"id\":3.5\x7d").toList) = none := by decide

example : decodeRoomID (("\x7b\"id\":\"5\"\x7d").toList) = some 5 := by decide

example : decodeRoomID (("\x7b\"id\":\"-12\"\x7d").toList) = some (-12) := by decide

example : decodeRoomID (("\x7b\"id\":\"3.5\"\x7d").toList) = none := by decide

example : decodeRoomID (("\x7b\"id\":\"\"\x7d").toList) = none := by decide

example : normalizeRoomName (("  Deluxe--Room (Sea)  ").toList) =
    ("deluxe room sea").toList := by decide

example : getAlternateHotelID (("#H2").toList) = ("H2").toList := by decide

example : getAlternateHotelID (("H2").toList) = ("#H2").toList := by decide

example : dedupStringsInPlace [("H1").toList, [], ("H1").toList, ("#H2").toList] =
    [("H1").toList, ("#H2").toList] := by decide

example : dedupFirstSpec [("H1").toList, [], ("H1").toList, ("#H2").toList] =
    [("H1").toList, ("#H2").toList] := by decide

example : fetchRoomsForHotel storeA (("42").toList) =
    Except.ok [{ Name := ("ocean view").toList, ID := 5 }] := by decide

example : fetchRoomsForHotel storeA (("99").toList) = Except.ok [] := by decide

example :
    GetRoomMappingsBatch storeA (some [("42").toList, ("99").toList]) =
      Except.ok
        { trace := [[roomMapKey (("42").toList), roomMapKey (("#42").toList),
                     roomMapKey (("99").toList), roomMapKey (("#99").toList)]]
          hotels := [(("42").toList, [{ Name := ("ocean view").toList, ID := 5 }]),
                     (("99").toList, [])] } := by decide

example :
    GetRoomMappingsBatch storeA (some (List.replicate 101 (("42").toList))) =
      Except.error (("hotel_ids must contain 1..100 items").toList) := by decide

/-! Lemmas about trimming. -/

lemma dropWhile_cons_false {p : Char → Bool} {a : Char} {l : GoStr} (h : p a = false) :
    (a :: l).dropWhile p = a :: l := by
  simp [List.dropWhile_cons, h]

lemma dropWhile_head_false {p : Char → Bool} {l : GoStr} (h : l.dropWhile p = l) :
    ∀ c ∈ l.head?, p c = false := by
  intro c hc
  cases l with
  | nil => simp at hc
  | cons a t =>
    have hca : a = c := by simpa using hc
    rw [← hca]
    rcases Bool.eq_false_or_eq_true (p a) with hp | hp
    · exfalso
      rw [List.dropWhile_cons, if_pos hp] at h
      have hlen := congrArg List.length h
      have hle := (List.dropWhile_suffix (l := t) p).length_le
      simp only [List.length_cons] at hlen
      omega
    · exact hp

lemma dropWhile_eq_self_of_head {p : Char → Bool} {l : GoStr}
    (h : ∀ c ∈ l.head?, p c = false) : l.dropWhile p = l := by
  cases l with
  | nil => rfl
  | cons a t => exact dropWhile_cons_false (h a (by simp))

lemma trimSpace_parts {s : GoStr} (h : trimSpace s = s) :
    trimLeft s = s ∧ trimRight s = s := by
  have h1 : (trimLeft s).length ≤ s.length := (List.dropWhile_suffix _).length_le
  have h2 : (trimRight (trimLeft s)).length ≤ (trimLeft s).length := by
    unfold trimRight
    calc ((trimLeft s).reverse.dropWhile isUnicodeSpace).reverse.length
        = ((trimLeft s).reverse.dropWhile isUnicodeSpace).length := by
          rw [List.length_reverse]
      _ ≤ (trimLeft s).reverse.length := (List.dropWhile_suffix _).length_le
      _ = (trimLeft s).length := by rw [List.length_reverse]
  have hlen : (trimSpace s).length = s.length := congrArg List.length h
  have hdef : trimSpace s = trimRight (trimLeft s) := rfl
  rw [hdef] at hlen
  have hTL : trimLeft s = s := by
    have hsuf := List.dropWhile_suffix (l := s) isUnicodeSpace
    refine hsuf.eq_of_length ?_
    have h4 : (trimLeft s).length = (List.dropWhile isUnicodeSpace s).length := rfl
    omega
  refine ⟨hTL, ?_⟩
  have := h
  unfold trimSpace at this
  rw [hTL] at this
  exact this

lemma trimRight_rev {s : GoStr} (h : trimRight s = s) :
    s.reverse.dropWhile isUnicodeSpace = s.reverse := by
  have := congrArg List.reverse h
  unfold trimRight at this
  simpa using this

lemma trimSpace_cons {c : Char} {s : GoStr} (hc : isUnicodeSpace c = false)
    (hs : trimSpace s = s) : trimSpace (c :: s) = c :: s := by
  obtain ⟨hTL, hTR⟩ := trimSpace_parts hs
  unfold trimSpace
  rw [show trimLeft (c :: s) = c :: s from dropWhile_cons_false hc]
  unfold trimRight
  have hrev : (c :: s).reverse = s.reverse ++ [c] := by simp
  rw [hrev]
  have hsr : s.reverse.dropWhile isUnicodeSpace = s.reverse := trimRight_rev hTR
  have hdrop : (s.reverse ++ [c]).dropWhile isUnicodeSpace = s.reverse ++ [c] := by
    cases hsrev : s.reverse with
    | nil => simpa using dropWhile_cons_false (l := []) hc
    | cons a t =>
      have ha : isUnicodeSpace a = false := by
        have := dropWhile_head_false hsr a
        rw [hsrev] at this
        exact this (by simp)
      rw [List.cons_append]
      exact dropWhile_cons_false ha
  rw [hdrop, List.reverse_append, List.reverse_reverse]
  rfl

/-- Claim C7, counterexample: the identifier of two markers followed
by a letter is trimmed and differs from the bare marker, yet
toggling the marker twice does not return it: stripping eats only
the first marker while the return path prepends one to the remainder
whose own leading marker is then stripped first. -/
theorem alternate_involution_cex :
    trimSpace (("##a").toList) = ("##a").toList ∧
    ("##a").toList ≠ ("#").toList ∧
    getAlternateHotelID (getAlternateHotelID (("##a").toList)) ≠ ("##a").toList := by
  decide

/-- Claim C7 (amended): getAlternateHotelID is an involution on
every trimmed identifier whose text after stripping one optional
leading marker is itself trimmed and does not begin with another
marker; the counterexample for the claim as stated shows the side
condition is necessary. -/
theorem alternate_involution (idStr : GoStr)
    (h1 : trimSpace idStr = idStr)
    (h2 : ∀ rest, idStr = '#' :: rest → trimSpace rest = rest ∧ rest.head? ≠ some '#') :
    getAlternateHotelID (getAlternateHotelID idStr) = idStr := by
  cases idStr with
  | nil => decide
  | cons c t =>
    by_cases hc : c = '#'
    · subst hc
      obtain ⟨ht, hh⟩ := h2 t rfl
      have e1 : getAlternateHotelID ('#' :: t) = t := by
        unfold getAlternateHotelID
        rw [h1]
        simp
      rw [e1]
      unfold getAlternateHotelID
      rw [ht, if_neg hh]
    · have e1 : getAlternateHotelID (c :: t) = '#' :: c :: t := by
        unfold getAlternateHotelID
        rw [h1]
        rw [if_neg (by simpa using hc)]
      rw [e1]
      unfold getAlternateHotelID
      rw [trimSpace_cons (by decide) h1]
      simp

/-- Witness for the amended claim C7 at a concrete identifier. -/
theorem alternate_involution_witness :
    trimSpace (("#H2").toList) = ("#H2").toList ∧
    getAlternateHotelID (getAlternateHotelID (("#H2").toList)) = ("#H2").toList :=
  ⟨by decide,
   alternate_involution (("#H2").toList) (by decide)
     (fun rest hr => by
       have hrest : rest = ['H', '2'] := (List.cons.inj hr).2.symm
       subst hrest
       exact ⟨by decide, by decide⟩)⟩

/-! Lemmas towards idempotence of the normalizer. -/

/-- Adjacent-pair condition on a string: no two neighbouring
characters both lie in the backslash-s class. -/
def noWsRun (s : GoStr) : Prop :=
  List.Chain' (fun a b => ¬(isWsRe a = true ∧ isWsRe b = true)) s

lemma char_toNat_ofNat {n : Nat} (h : n < 55296) : (Char.ofNat n).toNat = n := by
  rw [Char.ofNat, dif_pos (Or.inl h)]
  rfl

lemma goToLower_toNat_of_upper {c : Char} (h1 : 65 ≤ c.toNat) (h2 : c.toNat ≤ 90) :
    (goToLower c).toNat = c.toNat + 32 := by
  unfold goToLower
  rw [if_pos (by simp [h1, h2])]
  exact char_toNat_ofNat (by omega)

lemma goToLower_fixed_of_not_upper {c : Char} (h : ¬(65 ≤ c.toNat ∧ c.toNat ≤ 90)) :
    goToLower c = c := by
  unfold goToLower
  rw [if_neg (by simpa using h)]

lemma goToLower_idem (c : Char) : goToLower (goToLower c) = goToLower c := by
  by_cases h : 65 ≤ c.toNat ∧ c.toNat ≤ 90
  · have ht := goToLower_toNat_of_upper h.1 h.2
    exact goToLower_fixed_of_not_upper (by omega)
  · rw [goToLower_fixed_of_not_upper h]
    exact goToLower_fixed_of_not_upper h

lemma map_eq_self_of_mem {f : Char → Char} {l : GoStr} (h : ∀ x ∈ l, f x = x) :
    l.map f = l := by
  induction l with
  | nil => rfl
  | cons a t ih =>
    simp only [List.map_cons]
    rw [h a (by simp), ih (fun x hx => h x (by simp [hx]))]

lemma head_dropWhile_false (p : Char → Bool) (l : GoStr) :
    ∀ c ∈ (l.dropWhile p).head?, p c = false := by
  induction l with
  | nil => simp
  | cons a t ih =>
    intro c hc
    by_cases hp : p a = true
    · rw [List.dropWhile_cons, if_pos hp] at hc
      exact ih c hc
    · rw [List.dropWhile_cons, if_neg hp] at hc
      have hca : a = c := by simpa using hc
      rw [← hca]
      simpa using hp

lemma trimRight_head {l : GoStr} {c : Char} (hc : c ∈ (trimRight l).head?) :
    c ∈ l.head? := by
  obtain ⟨t, htv⟩ := List.dropWhile_suffix (l := l.reverse) isUnicodeSpace
  have hl : l = trimRight l ++ t.reverse := by
    have h2 := congrArg List.reverse htv
    simp only [List.reverse_append, List.reverse_reverse] at h2
    exact h2.symm
  cases hrt : trimRight l with
  | nil => rw [hrt] at hc; simp at hc
  | cons a r =>
    rw [hrt] at hc
    have hca : a = c := by simpa using hc
    rw [hl, hrt]
    simpa using hca

lemma trimRight_idem (s : GoStr) : trimRight (trimRight s) = trimRight s := by
  show ((trimRight s).reverse.dropWhile isUnicodeSpace).reverse = trimRight s
  have : (trimRight s).reverse = s.reverse.dropWhile isUnicodeSpace := by
    show (trimRight s).reverse = _
    unfold trimRight
    rw [List.reverse_reverse]
  rw [this, List.dropWhile_idempotent]
  rfl

lemma trimSpace_idem (s : GoStr) : trimSpace (trimSpace s) = trimSpace s := by
  show trimRight (trimLeft (trimRight (trimLeft s))) = trimRight (trimLeft s)
  have h1 : trimLeft (trimRight (trimLeft s)) = trimRight (trimLeft s) := by
    apply dropWhile_eq_self_of_head
    intro c hc
    exact head_dropWhile_false isUnicodeSpace s c (trimRight_head hc)
  rw [h1, trimRight_idem]

lemma mem_trimSpace {c : Char} {s : GoStr} (h : c ∈ trimSpace s) : c ∈ s := by
  have h1 : c ∈ (trimLeft s).reverse.dropWhile isUnicodeSpace := by
    have h0 : c ∈ ((trimLeft s).reverse.dropWhile isUnicodeSpace).reverse := h
    simpa using h0
  have h2 : c ∈ (trimLeft s).reverse := (List.dropWhile_suffix _).subset h1
  have h3 : c ∈ trimLeft s := by simpa using h2
  exact (List.dropWhile_suffix _).subset h3

lemma noWsRun_reverse {l : GoStr} (h : noWsRun l) : noWsRun l.reverse := by
  rw [noWsRun, List.chain'_reverse]
  exact List.Chain'.imp (fun _ _ hab hc => hab ⟨hc.2, hc.1⟩) h

lemma noWsRun_trimSpace {s : GoStr} (h : noWsRun s) : noWsRun (trimSpace s) := by
  have h1 : noWsRun (trimLeft s) := h.suffix (List.dropWhile_suffix _)
  have h2 : noWsRun (trimLeft s).reverse := noWsRun_reverse h1
  have h3 : noWsRun ((trimLeft s).reverse.dropWhile isUnicodeSpace) :=
    h2.suffix (List.dropWhile_suffix _)
  exact noWsRun_reverse h3

lemma collapseWsAux_mem {s : GoStr} :
    ∀ (b : Bool), ∀ c ∈ collapseWsAux b s, c = ' ' ∨ c ∈ s := by
  induction s with
  | nil => intro b c hc; simp [collapseWsAux] at hc
  | cons a t ih =>
    intro b c hc
    unfold collapseWsAux at hc
    by_cases ha : isWsRe a = true
    · rw [if_pos ha] at hc
      by_cases hb : b = true
      · rw [if_pos hb] at hc
        rcases ih true c hc with h | h
        · exact Or.inl h
        · exact Or.inr (List.mem_cons_of_mem a h)
      · rw [if_neg hb] at hc
        rcases List.mem_cons.mp hc with h | h
        · exact Or.inl h
        · rcases ih true c h with h2 | h2
          · exact Or.inl h2
          · exact Or.inr (List.mem_cons_of_mem a h2)
    · rw [if_neg ha] at hc
      rcases List.mem_cons.mp hc with h | h
      · exact Or.inr (by rw [h]; exact List.mem_cons_self a t)
      · rcases ih false c h with h2 | h2
        · exact Or.inl h2
        · exact Or.inr (List.mem_cons_of_mem a h2)

lemma collapseWsAux_ws_space {s : GoStr} :
    ∀ (b : Bool), ∀ c ∈ collapseWsAux b s, isWsRe c = true → c = ' ' := by
  induction s with
  | nil => intro b c hc; simp [collapseWsAux] at hc
  | cons a t ih =>
    intro b c hc hw
    unfold collapseWsAux at hc
    by_cases ha : isWsRe a = true
    · rw [if_pos ha] at hc
      by_cases hb : b = true
      · rw [if_pos hb] at hc
        exact ih true c hc hw
      · rw [if_neg hb] at hc
        rcases List.mem_cons.mp hc with h | h
        · exact h
        · exact ih true c h hw
    · rw [if_neg ha] at hc
      rcases List.mem_cons.mp hc with h | h
      · exfalso
        rw [h] at hw
        exact ha hw
      · exact ih false c h hw

lemma collapseWsAux_true_head {s : GoStr} :
    ∀ c ∈ (collapseWsAux true s).head?, isWsRe c = false := by
  induction s with
  | nil => simp [collapseWsAux]
  | cons a t ih =>
    intro c hc
    unfold collapseWsAux at hc
    by_cases ha : isWsRe a = true
    · rw [if_pos ha, if_pos rfl] at hc
      exact ih c hc
    · rw [if_neg ha] at hc
      have hca : a = c := by simpa using hc
      rw [← hca]
      simpa using ha

lemma collapseWsAux_chain (s : GoStr) : ∀ (b : Bool), noWsRun (collapseWsAux b s) := by
  induction s with
  | nil => intro b; exact List.chain'_nil
  | cons a t ih =>
    intro b
    unfold collapseWsAux
    by_cases ha : isWsRe a = true
    · rw [if_pos ha]
      by_cases hb : b = true
      · rw [if_pos hb]
        exact ih true
      · rw [if_neg hb]
        refine List.chain'_cons'.mpr ⟨?_, ih true⟩
        intro y hy
        intro hcon
        have h2 := collapseWsAux_true_head y hy
        rw [hcon.2] at h2
        exact Bool.true_eq_false.mp h2
    · rw [if_neg ha]
      refine List.chain'_cons'.mpr ⟨?_, ih false⟩
      intro y hy hcon
      exact ha hcon.1

lemma collapseWsAux_flag_eq {s : GoStr} (h : ∀ c ∈ s.head?, isWsRe c = false) :
    collapseWsAux true s = collapseWsAux false s := by
  cases s with
  | nil => rfl
  | cons d r =>
    have hd := h d (by simp)
    unfold collapseWsAux
    rw [if_neg (by simp [hd]), if_neg (by simp [hd])]

lemma collapseWsAux_fixed :
    ∀ (s : GoStr), (∀ c ∈ s, isWsRe c = true → c = ' ') → noWsRun s →
      collapseWsAux false s = s := by
  intro s
  induction s with
  | nil => intro _ _; rfl
  | cons a t ih =>
    intro hw hch
    unfold collapseWsAux
    by_cases ha : isWsRe a = true
    · rw [if_pos ha]
      have haSp : a = ' ' := hw a (by simp) ha
      have hchain := List.chain'_cons'.mp hch
      have hihead : ∀ c ∈ t.head?, isWsRe c = false := by
        intro c hc
        by_cases hcw : isWsRe c = true
        · exact absurd ⟨ha, hcw⟩ (hchain.1 c hc)
        · simpa using hcw
      have htail : collapseWsAux true t = t := by
        rw [collapseWsAux_flag_eq hihead]
        exact ih (fun x hx => hw x (by simp [hx])) hchain.2
      rw [if_neg (fun hf => Bool.false_ne_true hf), htail, haSp]
    · rw [if_neg ha]
      have hchain := List.chain'_cons'.mp hch
      rw [ih (fun x hx => hw x (by simp [hx])) hchain.2]

/-- Claim C8: the room-name normalizer is idempotent. -/
theorem normalize_idempotent (s : GoStr) :
    normalizeRoomName (normalizeRoomName s) = normalizeRoomName s := by
  have hN : normalizeRoomName s =
      trimSpace (collapseWs (punctReplace ((trimSpace s).map goToLower))) := rfl
  set s2 := punctReplace ((trimSpace s).map goToLower) with hs2def
  set s3 := collapseWs s2 with hs3def
  have hNs : normalizeRoomName s = trimSpace s3 := rfl
  -- characters of the first pass output are lower-case-fixed and
  -- punctuation-free
  have hs2chars : ∀ c ∈ s2, goToLower c = c ∧ isPunctReplaced c = false := by
    intro c hc
    rw [hs2def] at hc
    obtain ⟨d, hd, hde⟩ := List.mem_map.mp hc
    by_cases hp : isPunctReplaced d = true
    · rw [if_pos hp] at hde
      rw [← hde]
      exact ⟨by decide, by decide⟩
    · rw [if_neg hp] at hde
      obtain ⟨e, _, hee⟩ := List.mem_map.mp hd
      constructor
      · rw [← hde, ← hee]
        exact goToLower_idem e
      · rw [← hde]
        simpa using hp
  have hs3chars : ∀ c ∈ s3, goToLower c = c ∧ isPunctReplaced c = false := by
    intro c hc
    rcases collapseWsAux_mem false c hc with h | h
    · rw [h]
      exact ⟨by decide, by decide⟩
    · exact hs2chars c h
  have hlow : ∀ c ∈ trimSpace s3, goToLower c = c :=
    fun c hc => (hs3chars c (mem_trimSpace hc)).1
  have hpunct : ∀ c ∈ trimSpace s3, isPunctReplaced c = false :=
    fun c hc => (hs3chars c (mem_trimSpace hc)).2
  have hws : ∀ c ∈ trimSpace s3, isWsRe c = true → c = ' ' :=
    fun c hc => collapseWsAux_ws_space false c (mem_trimSpace hc)
  have hchain : noWsRun (trimSpace s3) :=
    noWsRun_trimSpace (collapseWsAux_chain s2 false)
  -- the four stages all fix the first pass output
  have e1 : trimSpace (trimSpace s3) = trimSpace s3 := trimSpace_idem s3
  have e2 : (trimSpace s3).map goToLower = trimSpace s3 := map_eq_self_of_mem hlow
  have e3 : punctReplace (trimSpace s3) = trimSpace s3 :=
    map_eq_self_of_mem (fun c hc => by rw [if_neg (by simp [hpunct c hc])])
  have e4 : collapseWs (trimSpace s3) = trimSpace s3 :=
    collapseWsAux_fixed (trimSpace s3) hws hchain
  calc normalizeRoomName (normalizeRoomName s)
      = trimSpace (collapseWs (punctReplace ((trimSpace (trimSpace s3)).map goToLower))) := by
        rw [hNs]
        rfl
    _ = trimSpace s3 := by rw [e1, e2, e3, e4, e1]
    _ = normalizeRoomName s := hNs.symm


/-! Lemmas about the room-parsing loop. -/

/-! Reduction equations for the room-parsing loop. -/

lemma roomsLoop_stop {c : Nat} (h : maxRoomsToProcess ≤ c) :
    ∀ l : List (GoStr × GoStr), roomsLoop c l = [] := by
  intro l
  cases l with
  | nil => rw [roomsLoop]
  | cons p t =>
    obtain ⟨n, b⟩ := p
    rw [roomsLoop, if_pos h]

lemma roomsLoop_cons_none {n b : GoStr} {t : List (GoStr × GoStr)} {c : Nat}
    (hc : ¬ maxRoomsToProcess ≤ c) (hd : decodeRoomID b = none) :
    roomsLoop c ((n, b) :: t) = roomsLoop c t := by
  conv_lhs => rw [roomsLoop]
  rw [if_neg hc, hd]

lemma roomsLoop_cons_some {n b : GoStr} {t : List (GoStr × GoStr)} {c : Nat} {i : Int}
    (hc : ¬ maxRoomsToProcess ≤ c) (hd : decodeRoomID b = some i) :
    roomsLoop c ((n, b) :: t) =
      if i = 0 then roomsLoop c t
      else { Name := normalizeRoomName n, ID := i } :: roomsLoop (c + 1) t := by
  conv_lhs => rw [roomsLoop]
  rw [if_neg hc, hd]

lemma roomsLoop_length (l : List (GoStr × GoStr)) :
    ∀ c, (roomsLoop c l).length ≤ maxRoomsToProcess - c := by
  induction l with
  | nil => intro c; simp [roomsLoop]
  | cons p t ih =>
    obtain ⟨n, b⟩ := p
    intro c
    by_cases hc : maxRoomsToProcess ≤ c
    · rw [roomsLoop_stop hc]
      simp
    · cases hd : decodeRoomID b with
      | none =>
        rw [roomsLoop_cons_none hc hd]
        exact ih c
      | some i =>
        rw [roomsLoop_cons_some hc hd]
        by_cases hi : i = 0
        · rw [if_pos hi]
          exact ih c
        · rw [if_neg hi]
          have h2 := ih (c + 1)
          simp only [List.length_cons]
          omega

lemma roomsLoop_append (l1 l2 : List (GoStr × GoStr)) :
    ∀ c, roomsLoop c (l1 ++ l2) =
      roomsLoop c l1 ++ roomsLoop (c + (roomsLoop c l1).length) l2 := by
  induction l1 with
  | nil => intro c; simp [roomsLoop]
  | cons p t ih =>
    obtain ⟨n, b⟩ := p
    intro c
    by_cases hc : maxRoomsToProcess ≤ c
    · rw [roomsLoop_stop hc, roomsLoop_stop hc]
      rw [show c + ([] : List Room).length = c from by simp]
      rw [roomsLoop_stop hc]
      rfl
    · rw [List.cons_append]
      cases hd : decodeRoomID b with
      | none =>
        rw [roomsLoop_cons_none hc hd, roomsLoop_cons_none hc hd]
        exact ih c
      | some i =>
        rw [roomsLoop_cons_some hc hd, roomsLoop_cons_some hc hd]
        by_cases hi : i = 0
        · rw [if_pos hi, if_pos hi]
          exact ih c
        · rw [if_neg hi, if_neg hi, ih (c + 1)]
          simp only [List.length_cons, List.cons_append]
          have harith : c + 1 + (roomsLoop (c + 1) t).length =
              c + ((roomsLoop (c + 1) t).length + 1) := by omega
          rw [harith]

lemma roomsLoop_mem (l : List (GoStr × GoStr)) :
    ∀ c r, r ∈ roomsLoop c l →
      r.ID ≠ 0 ∧ ∃ p ∈ l, r.Name = normalizeRoomName p.1 ∧ decodeRoomID p.2 = some r.ID := by
  induction l with
  | nil => intro c r hr; simp [roomsLoop] at hr
  | cons p t ih =>
    obtain ⟨n, b⟩ := p
    intro c r hr
    by_cases hc : maxRoomsToProcess ≤ c
    · rw [roomsLoop_stop hc] at hr
      simp at hr
    · cases hd : decodeRoomID b with
      | none =>
        rw [roomsLoop_cons_none hc hd] at hr
        obtain ⟨h1, p2, hp2, h3⟩ := ih c r hr
        exact ⟨h1, p2, List.mem_cons_of_mem _ hp2, h3⟩
      | some i =>
        rw [roomsLoop_cons_some hc hd] at hr
        by_cases hi : i = 0
        · rw [if_pos hi] at hr
          obtain ⟨h1, p2, hp2, h3⟩ := ih c r hr
          exact ⟨h1, p2, List.mem_cons_of_mem _ hp2, h3⟩
        · rw [if_neg hi] at hr
          rcases List.mem_cons.mp hr with h | h
          · refine ⟨by rw [h]; exact hi, (n, b), List.mem_cons_self _ _, ?_, ?_⟩
            · rw [h]
            · rw [hd, h]
          · obtain ⟨h1, p2, hp2, h3⟩ := ih (c + 1) r h
            exact ⟨h1, p2, List.mem_cons_of_mem _ hp2, h3⟩

lemma roomsLoop_skip {nm blob : GoStr}
    (hd : decodeRoomID blob = none ∨ decodeRoomID blob = some 0)
    (l1 l2 : List (GoStr × GoStr)) :
    ∀ c, roomsLoop c (l1 ++ (nm, blob) :: l2) = roomsLoop c (l1 ++ l2) := by
  induction l1 with
  | nil =>
    intro c
    by_cases hc : maxRoomsToProcess ≤ c
    · rw [roomsLoop_stop hc, roomsLoop_stop hc]
    · show roomsLoop c ((nm, blob) :: l2) = _
      rcases hd with h | h
      · rw [roomsLoop_cons_none hc h]
        rfl
      · rw [roomsLoop_cons_some hc h, if_pos rfl]
        rfl
  | cons p t ih =>
    obtain ⟨n, b⟩ := p
    intro c
    by_cases hc : maxRoomsToProcess ≤ c
    · rw [roomsLoop_stop hc, roomsLoop_stop hc]
    · rw [List.cons_append, List.cons_append]
      cases hdb : decodeRoomID b with
      | none =>
        rw [roomsLoop_cons_none hc hdb, roomsLoop_cons_none hc hdb]
        exact ih c
      | some i =>
        rw [roomsLoop_cons_some hc hdb, roomsLoop_cons_some hc hdb]
        by_cases hi : i = 0
        · rw [if_pos hi, if_pos hi]
          exact ih c
        · rw [if_neg hi, if_neg hi, ih (c + 1)]

lemma roomsLoop_countP (l : List (GoStr × GoStr)) :
    ∀ c, c + l.length ≤ maxRoomsToProcess →
      (roomsLoop c l).length = l.countP (fun p => decodeKeeps p.2) := by
  induction l with
  | nil => intro c _; simp [roomsLoop]
  | cons p t ih =>
    obtain ⟨n, b⟩ := p
    intro c hle
    have hc : ¬ maxRoomsToProcess ≤ c := by
      simp only [List.length_cons] at hle
      omega
    have hle2 : c + t.length ≤ maxRoomsToProcess := by
      simp only [List.length_cons] at hle
      omega
    rw [List.countP_cons]
    cases hd : decodeRoomID b with
    | none =>
      have hk : decodeKeeps b = false := by unfold decodeKeeps; rw [hd]
      rw [roomsLoop_cons_none hc hd, ih c hle2]
      simp [hk]
    | some i =>
      rw [roomsLoop_cons_some hc hd]
      by_cases hi : i = 0
      · rw [if_pos hi]
        have hk : decodeKeeps b = false := by
          unfold decodeKeeps
          rw [hd]
          simp [hi]
        rw [ih c hle2]
        simp [hk]
      · rw [if_neg hi]
        have hk : decodeKeeps b = true := by
          unfold decodeKeeps
          rw [hd]
          simp [hi]
        have hle3 : c + 1 + t.length ≤ maxRoomsToProcess := by
          simp only [List.length_cons] at hle
          omega
        rw [List.length_cons, ih (c + 1) hle3]
        simp [hk]

lemma parseRooms_perm (l : List (GoStr × GoStr)) :
    (parseRooms l).Perm (roomsLoop 0 l) :=
  List.perm_insertionSort roomLess (roomsLoop 0 l)

lemma parseRooms_length (l : List (GoStr × GoStr)) :
    (parseRooms l).length = (roomsLoop 0 l).length :=
  (parseRooms_perm l).length_eq

lemma mem_parseRooms {r : Room} {l : List (GoStr × GoStr)} :
    r ∈ parseRooms l ↔ r ∈ roomsLoop 0 l :=
  (parseRooms_perm l).mem_iff

lemma parseRooms_le_cap (l : List (GoStr × GoStr)) :
    (parseRooms l).length ≤ maxRoomsToProcess := by
  rw [parseRooms_length]
  have h := roomsLoop_length l 0
  omega

/-! Reduction equations for the resolvers. -/

lemma fetchFallback_error {store : Store} {hid : GoStr} {e : GoStr}
    (hf : store (roomMapKey (getAlternateHotelID hid)) = Except.error e) :
    fetchFallback store hid = Except.error e := by
  unfold fetchFallback
  rw [hf]

lemma fetchFallback_ok {store : Store} {hid : GoStr} {m : FieldMap}
    (hf : store (roomMapKey (getAlternateHotelID hid)) = Except.ok m) :
    fetchFallback store hid = Except.ok (parseRooms m) := by
  unfold fetchFallback
  rw [hf]

lemma fetchRooms_primary_ok {store : Store} {hid : GoStr} {m : FieldMap}
    (hp : store (roomMapKey hid) = Except.ok m) :
    fetchRoomsForHotel store hid =
      if 0 < m.length then Except.ok (parseRooms m) else fetchFallback store hid := by
  unfold fetchRoomsForHotel
  rw [hp]

lemma fetchRooms_primary_error {store : Store} {hid : GoStr} {e : GoStr}
    (hp : store (roomMapKey hid) = Except.error e) :
    fetchRoomsForHotel store hid = fetchFallback store hid := by
  unfold fetchRoomsForHotel
  rw [hp]

lemma batchAssemble_cons (hid : GoStr) (rest : List GoStr) (p f : StoreReply)
    (ps2 fs2 : List StoreReply) :
    batchAssemble (hid :: rest) (p :: ps2) (f :: fs2) =
      (hid, reconcileSpec p f) :: batchAssemble rest ps2 fs2 := by
  cases p with
  | ok m =>
    cases f with
    | ok m2 =>
      by_cases hl : m.length = 0 <;> by_cases hl2 : m2.length = 0 <;>
        simp [batchAssemble, reconcileSpec, reconcileFallbackSpec, hl, hl2]
    | error e =>
      by_cases hl : m.length = 0 <;>
        simp [batchAssemble, reconcileSpec, reconcileFallbackSpec, hl]
  | error e =>
    cases f with
    | ok m2 =>
      by_cases hl2 : m2.length = 0 <;>
        simp [batchAssemble, reconcileSpec, reconcileFallbackSpec, hl2]
    | error e2 => simp [batchAssemble, reconcileSpec, reconcileFallbackSpec]

lemma batchAssemble_map (store : Store) :
    ∀ ids : List GoStr,
      batchAssemble ids (ids.map (fun hid => store (roomMapKey hid)))
          (ids.map (fun hid => store (roomMapKey (getAlternateHotelID hid)))) =
      ids.map (fun hid =>
        (hid, reconcileSpec (store (roomMapKey hid))
          (store (roomMapKey (getAlternateHotelID hid))))) := by
  intro ids
  induction ids with
  | nil => simp [batchAssemble]
  | cons hid rest ih =>
    simp only [List.map_cons, batchAssemble_cons, ih]

lemma getBatch_ok (store : Store) (ids : List GoStr)
    (h1 : 1 ≤ ids.length) (h2 : ids.length ≤ 100) :
    GetRoomMappingsBatch store (some ids) =
      Except.ok
        { trace := [batchPipelineKeys (dedupStringsInPlace ids)]
          hotels := (dedupStringsInPlace ids).map (fun hid =>
            (hid, reconcileSpec (store (roomMapKey hid))
              (store (roomMapKey (getAlternateHotelID hid))))) } := by
  have hcond : ¬((ids.length = 0 || 100 < ids.length) = true) := by
    simp only [Bool.or_eq_true, decide_eq_true_eq, not_or]
    exact ⟨by omega, by omega⟩
  simp only [GetRoomMappingsBatch]
  rw [if_neg hcond, batchAssemble_map]

lemma getBatch_ok_inv {store : Store} {body : Option (List GoStr)} {bOk : BatchOk}
    (h : GetRoomMappingsBatch store body = Except.ok bOk) :
    ∃ ids, body = some ids ∧ 1 ≤ ids.length ∧ ids.length ≤ 100 ∧
      bOk = { trace := [batchPipelineKeys (dedupStringsInPlace ids)]
              hotels := (dedupStringsInPlace ids).map (fun hid =>
                (hid, reconcileSpec (store (roomMapKey hid))
                  (store (roomMapKey (getAlternateHotelID hid))))) } := by
  cases body with
  | none => simp [GetRoomMappingsBatch] at h
  | some ids =>
    by_cases hv : ids.length = 0 ∨ 100 < ids.length
    · exfalso
      have hcond : (ids.length = 0 || 100 < ids.length) = true := by
        simp only [Bool.or_eq_true, decide_eq_true_eq]
        exact hv
      simp only [GetRoomMappingsBatch] at h
      rw [if_pos hcond] at h
      exact Except.noConfusion h
    · push_neg at hv
      refine ⟨ids, rfl, by omega, by omega, ?_⟩
      rw [getBatch_ok store ids (by omega) (by omega)] at h
      exact (Except.ok.inj h).symm

lemma reconcileSpec_length (p f : StoreReply) :
    (reconcileSpec p f).length ≤ maxRoomsToProcess := by
  cases p with
  | ok m =>
    by_cases hl : m.length = 0
    · rw [reconcileSpec, if_pos hl]
      cases f with
      | ok m2 =>
        by_cases hl2 : m2.length = 0
        · rw [reconcileFallbackSpec, if_pos hl2]
          simp [maxRoomsToProcess]
        · rw [reconcileFallbackSpec, if_neg hl2]
          exact parseRooms_le_cap m2
      | error e =>
        rw [reconcileFallbackSpec]
        simp [maxRoomsToProcess]
    · rw [reconcileSpec, if_neg hl]
      exact parseRooms_le_cap m
  | error e =>
    rw [reconcileSpec]
    cases f with
    | ok m2 =>
      by_cases hl2 : m2.length = 0
      · rw [reconcileFallbackSpec, if_pos hl2]
        simp [maxRoomsToProcess]
      · rw [reconcileFallbackSpec, if_neg hl2]
        exact parseRooms_le_cap m2
    | error e2 =>
      rw [reconcileFallbackSpec]
      simp [maxRoomsToProcess]

/-- Claim C9: parsing of one hotel is capped at the guardrail: no
parsed room list ever exceeds it, the loop emits nothing once the
count has reached it, the loop decomposes over appended field
segments with the count carried across, and the bound holds for the
lists resolved by the single-hotel path and by every batch response
entry alike, both going through parseRooms. -/
theorem parse_cap :
    (∀ l : List (GoStr × GoStr), (parseRooms l).length ≤ maxRoomsToProcess) ∧
    (∀ (c : Nat), maxRoomsToProcess ≤ c → ∀ l : List (GoStr × GoStr), roomsLoop c l = []) ∧
    (∀ (c : Nat) (l1 l2 : List (GoStr × GoStr)),
        roomsLoop c (l1 ++ l2) = roomsLoop c l1 ++ roomsLoop (c + (roomsLoop c l1).length) l2) ∧
    (∀ (store : Store) (hid : GoStr) (rooms : List Room),
        fetchRoomsForHotel store hid = Except.ok rooms → rooms.length ≤ maxRoomsToProcess) ∧
    (∀ (store : Store) (body : Option (List GoStr)) (bOk : BatchOk),
        GetRoomMappingsBatch store body = Except.ok bOk →
        ∀ e ∈ bOk.hotels, e.2.length ≤ maxRoomsToProcess) := by
  have hfall : ∀ (store : Store) (hid : GoStr) (rooms : List Room),
      fetchFallback store hid = Except.ok rooms → rooms.length ≤ maxRoomsToProcess := by
    intro store hid rooms h
    cases hf : store (roomMapKey (getAlternateHotelID hid)) with
    | error e =>
      rw [fetchFallback_error hf] at h
      exact absurd h (by simp)
    | ok m =>
      rw [fetchFallback_ok hf] at h
      rw [← Except.ok.inj h]
      exact parseRooms_le_cap m
  refine ⟨parseRooms_le_cap, ?_, ?_, ?_, ?_⟩
  · intro c hc l
    exact roomsLoop_stop hc l
  · intro c l1 l2
    exact roomsLoop_append l1 l2 c
  · intro store hid rooms h
    cases hp : store (roomMapKey hid) with
    | ok m =>
      rw [fetchRooms_primary_ok hp] at h
      by_cases hm : 0 < m.length
      · rw [if_pos hm] at h
        rw [← Except.ok.inj h]
        exact parseRooms_le_cap m
      · rw [if_neg hm] at h
        exact hfall store hid rooms h
    | error e =>
      rw [fetchRooms_primary_error hp] at h
      exact hfall store hid rooms h
  · intro store body bOk h e he
    obtain ⟨ids, _, _, _, hb⟩ := getBatch_ok_inv h
    rw [hb] at he
    obtain ⟨hid, _, hide⟩ := List.mem_map.mp he
    rw [← hide]
    exact reconcileSpec_length _ _

/-- Witness for claim C9 at concrete inputs. -/
theorem parse_cap_witness :
    maxRoomsToProcess ≤ maxRoomsToProcess ∧
    roomsLoop maxRoomsToProcess [((("x").toList), (("\x7b\"id\":1\x7d").toList))] = [] ∧
    fetchRoomsForHotel storeA (("42").toList) =
      Except.ok [{ Name := ("ocean view").toList, ID := 5 }] ∧
    ([{ Name := ("ocean view").toList, ID := 5 }] : List Room).length ≤ maxRoomsToProcess :=
  ⟨le_refl _,
   parse_cap.2.1 maxRoomsToProcess (le_refl _) _,
   by decide,
   parse_cap.2.2.2.1 storeA (("42").toList)
     ([{ Name := ("ocean view").toList, ID := 5 }] : List Room) (by decide)⟩

/-- Claim C5, counterexample: the blob whose id member is the JSON
string of five carries a string-typed, not number-typed, id, yet the
decoder accepts it through json.Number's string quirk of
encoding/json and the parser emits a record for the field, so a
non-numeric id does not always yield no record. -/
theorem string_id_quirk_cex :
    unmarshalRoomValue (("\x7b\"id\":\"5\"\x7d").toList) = some (some (("5").toList)) ∧
    decodeRoomID (("\x7b\"id\":\"5\"\x7d").toList) = some 5 ∧
    parseRooms [((("Quoted").toList), (("\x7b\"id\":\"5\"\x7d").toList))] =
      [{ Name := ("quoted").toList, ID := 5 }] := by
  exact ⟨by decide, by decide, by decide⟩

/-- Claim C5 (amended): a field whose value blob fails to decode
(invalid JSON, no id member, or an id that is neither a JSON number
nor a JSON string spelling a valid JSON number, or a literal that is
not an int64) or decodes to id zero yields no record and leaves the
records of every sibling field unchanged; a quoted valid integer
such as the string of five is accepted by json.Number's string quirk
and yields a record, while a quoted non-integer number is accepted
by the unmarshal but dropped at the int64 conversion; every emitted
record carries a nonzero id and the normalized form of some stored
field name. -/
theorem decode_failures_contained :
    (∀ (l1 l2 : List (GoStr × GoStr)) (nm blob : GoStr),
        decodeRoomID blob = none ∨ decodeRoomID blob = some 0 →
        parseRooms (l1 ++ (nm, blob) :: l2) = parseRooms (l1 ++ l2)) ∧
    (∀ (l : List (GoStr × GoStr)) (r : Room), r ∈ parseRooms l →
        r.ID ≠ 0 ∧ ∃ p ∈ l, r.Name = normalizeRoomName p.1 ∧ decodeRoomID p.2 = some r.ID) ∧
    decodeRoomID (("not json").toList) = none ∧
    decodeRoomID (("\x7b\x7d").toList) = none ∧
    decodeRoomID (("\x7b\"id\":\"x\"\x7d").toList) = none ∧
    decodeRoomID (("\x7b\"id\":true\x7d").toList) = none ∧
    decodeRoomID (("\x7b\"id\":0\x7d").toList) = some 0 ∧
    decodeRoomID (("\x7b\"id\":\"5\"\x7d").toList) = some 5 ∧
    decodeRoomID (("\x7b\"id\":\"3.5\"\x7d").toList) = none ∧
    decodeRoomID (("\x7b\"id\":\"\"\x7d").toList) = none := by
  refine ⟨?_, ?_, by decide, by decide, by decide, by decide, by decide, by decide,
    by decide, by decide⟩
  · intro l1 l2 nm blob hd
    unfold parseRooms
    rw [roomsLoop_skip hd l1 l2 0]
  · intro l r hr
    exact roomsLoop_mem l 0 r (mem_parseRooms.mp hr)

/-- Witness for claim C5 at a concrete malformed blob. -/
theorem decode_failures_contained_witness :
    (decodeRoomID (("oops").toList) = none ∨ decodeRoomID (("oops").toList) = some 0) ∧
    parseRooms ([((("a").toList), (("\x7b\"id\":4\x7d").toList))] ++
        ((("b").toList), (("oops").toList)) :: []) =
      parseRooms ([((("a").toList), (("\x7b\"id\":4\x7d").toList))] ++ []) :=
  ⟨Or.inl (by decide),
   decode_failures_contained.1 _ [] (("b").toList) (("oops").toList) (Or.inl (by decide))⟩

/-- Claim C10: every successfully decoded field yields its own
record even when distinct raw names normalize identically: within
the guardrail the number of records equals the number of fields that
decode to a nonzero id, and on the concrete colliding pair both
records are present side by side (no merge, no overwrite). -/
theorem collision_records_retained :
    (∀ l : List (GoStr × GoStr), l.length ≤ maxRoomsToProcess →
        (parseRooms l).length = l.countP (fun p => decodeKeeps p.2)) ∧
    normalizeRoomName (("Deluxe Room").toList) = normalizeRoomName (("deluxe  room").toList) ∧
    parseRooms collisionFields =
      [{ Name := ("deluxe room").toList, ID := 102 },
       { Name := ("deluxe room").toList, ID := 101 }] := by
  refine ⟨?_, by decide, by decide⟩
  intro l hl
  rw [parseRooms_length]
  exact roomsLoop_countP l 0 (by omega)

/-- Witness for claim C10 at the concrete colliding field map. -/
theorem collision_records_retained_witness :
    collisionFields.length ≤ maxRoomsToProcess ∧
    (parseRooms collisionFields).length =
      collisionFields.countP (fun p => decodeKeeps p.2) :=
  ⟨by decide, collision_records_retained.1 collisionFields (by decide)⟩

/-- Claim C4 is contradicted by the code: the sort applied by
parseRooms is not stable and the iteration order of the Go map it
consumes is randomized, so two iteration orders of one and the same
stored hash produce different record orders when two fields share a
normalized name; the code comment promises a stable order for
clients while sort.Slice explicitly does not guarantee stability. -/
theorem tie_order_depends_on_iteration :
    collisionFields.reverse.Perm collisionFields ∧
    parseRooms collisionFields ≠ parseRooms collisionFields.reverse :=
  ⟨List.reverse_perm collisionFields, by decide⟩

/-! Correspondence of the deduplication loop with its contract. -/

lemma dedupLoop_eq (l : List GoStr) :
    ∀ seen out, dedupLoop seen out l = out ++ dedupSeenSpec seen l := by
  induction l with
  | nil => intro seen out; simp [dedupLoop, dedupSeenSpec]
  | cons s rest ih =>
    intro seen out
    by_cases hs : s = []
    · rw [dedupLoop, if_pos hs, dedupSeenSpec, if_pos hs]
      exact ih seen out
    · rw [dedupLoop, if_neg hs, dedupSeenSpec, if_neg hs]
      by_cases hm : s ∈ seen
      · rw [if_pos hm, if_pos hm]
        exact ih seen out
      · rw [if_neg hm, if_neg hm, ih (s :: seen) (out ++ [s])]
        simp

lemma dedupSeenSpec_filter (l : List GoStr) :
    ∀ seen, dedupSeenSpec seen l =
      (dedupFirstSpec l).filter (fun a => decide (a ∉ seen)) := by
  induction l with
  | nil => intro seen; simp [dedupSeenSpec, dedupFirstSpec]
  | cons s rest ih =>
    intro seen
    by_cases hs : s = []
    · rw [dedupSeenSpec, if_pos hs, dedupFirstSpec, if_pos hs]
      exact ih seen
    · rw [dedupSeenSpec, if_neg hs, dedupFirstSpec, if_neg hs]
      by_cases hm : s ∈ seen
      · rw [if_pos hm, ih seen, List.filter_cons]
        rw [if_neg (by simp [hm])]
        rw [List.filter_filter]
        apply List.filter_congr
        intro a ha
        by_cases haseen : a ∈ seen
        · simp [haseen]
        · have hane : a ≠ s := fun he => haseen (by rw [he]; exact hm)
          simp [haseen, hane]
      · rw [if_neg hm, ih (s :: seen), List.filter_cons]
        rw [if_pos (by simp [hm])]
        congr 1
        rw [List.filter_filter]
        apply List.filter_congr
        intro a ha
        by_cases h1 : a = s
        · simp [h1, List.mem_cons]
        · by_cases h2 : a ∈ seen <;> simp [h1, h2, List.mem_cons]

lemma dedup_eq_spec (l : List GoStr) : dedupStringsInPlace l = dedupFirstSpec l := by
  show dedupLoop [] [] l = _
  rw [dedupLoop_eq l [] [], dedupSeenSpec_filter l []]
  simp

lemma dedupFirstSpec_sublist (l : List GoStr) : List.Sublist (dedupFirstSpec l) l := by
  induction l with
  | nil => simp [dedupFirstSpec]
  | cons s rest ih =>
    by_cases hs : s = []
    · rw [dedupFirstSpec, if_pos hs]
      exact ih.trans (List.sublist_cons_self s rest)
    · rw [dedupFirstSpec, if_neg hs]
      exact List.Sublist.cons₂ s ((List.filter_sublist _).trans ih)

lemma mem_dedupFirstSpec (l : List GoStr) (x : GoStr) :
    x ∈ dedupFirstSpec l ↔ x ∈ l ∧ x ≠ [] := by
  induction l with
  | nil => simp [dedupFirstSpec]
  | cons s rest ih =>
    by_cases hs : s = []
    · rw [dedupFirstSpec, if_pos hs, ih]
      subst hs
      constructor
      · rintro ⟨hx, hne⟩
        exact ⟨List.mem_cons_of_mem _ hx, hne⟩
      · rintro ⟨hx, hne⟩
        rcases List.mem_cons.mp hx with h | h
        · exact absurd h hne
        · exact ⟨h, hne⟩
    · rw [dedupFirstSpec, if_neg hs]
      constructor
      · intro hx
        rcases List.mem_cons.mp hx with h | h
        · rw [h]
          exact ⟨List.mem_cons_self _ _, hs⟩
        · obtain ⟨h1, _⟩ := List.mem_filter.mp h
          obtain ⟨h2, h3⟩ := ih.mp h1
          exact ⟨List.mem_cons_of_mem _ h2, h3⟩
      · rintro ⟨hx, hne⟩
        rcases List.mem_cons.mp hx with h | h
        · rw [h]
          exact List.mem_cons_self _ _
        · by_cases hxs : x = s
          · rw [hxs]
            exact List.mem_cons_self _ _
          · exact List.mem_cons_of_mem _
              (List.mem_filter.mpr ⟨ih.mpr ⟨h, hne⟩, by simp [hxs]⟩)

lemma dedupFirstSpec_nodup (l : List GoStr) : (dedupFirstSpec l).Nodup := by
  induction l with
  | nil => simp [dedupFirstSpec]
  | cons s rest ih =>
    by_cases hs : s = []
    · rw [dedupFirstSpec, if_pos hs]
      exact ih
    · rw [dedupFirstSpec, if_neg hs]
      refine List.nodup_cons.mpr ⟨?_, List.Nodup.filter _ ih⟩
      intro hmem
      have h2 := (List.mem_filter.mp hmem).2
      simp at h2

/-! Reduction equations for the single-hotel handler. -/

lemma getRoom_ne_nil {store : Store} {hid : GoStr} (h : ¬ hid = []) :
    GetRoomMappings store hid =
      match fetchRoomsForHotel store hid with
      | Except.error _ =>
        SingleResponse.serverError (("failed to fetch room mappings").toList)
      | Except.ok rooms => SingleResponse.ok rooms := by
  unfold GetRoomMappings
  rw [if_neg h]

/-- Claim C3, counterexample: with an empty primary hash and a
failing fallback fetch the resolver propagates the fallback error
instead of degrading to an empty result, and with a failing primary
fetch and a healthy alternate key it returns the fallback data
instead of surfacing the primary error. -/
theorem fallback_error_cex :
    storeC3 (roomMapKey (("99").toList)) = Except.ok [] ∧
    fetchRoomsForHotel storeC3 (("99").toList) =
      Except.error (("dial tcp: i/o timeout").toList) ∧
    storeC3b (roomMapKey (("7").toList)) =
      Except.error (("dial tcp: i/o timeout").toList) ∧
    fetchRoomsForHotel storeC3b (("7").toList) =
      Except.ok [{ Name := ("suite").toList, ID := 9 }] := by
  refine ⟨by decide, by decide, by decide, by decide⟩

/-- Claim C3 (amended): the single-hotel resolver returns the parse
of a non-empty primary result; otherwise, whether the primary fetch
erred or merely came back empty, the fallback fetch decides the
outcome: a fallback error is propagated to the caller and surfaces
as a server error response, and a fallback success is parsed (so a
primary store error is not surfaced when the fallback succeeds);
empty data under both keys yields the empty sequence, never an
error. -/
theorem fetch_error_paths (store : Store) (hid : GoStr) :
    (∀ m, store (roomMapKey hid) = Except.ok m → m ≠ [] →
        fetchRoomsForHotel store hid = Except.ok (parseRooms m)) ∧
    ((store (roomMapKey hid) = Except.ok [] ∨
        (∃ e, store (roomMapKey hid) = Except.error e)) →
      (∀ e2, store (roomMapKey (getAlternateHotelID hid)) = Except.error e2 →
          fetchRoomsForHotel store hid = Except.error e2 ∧
          (¬ hid = [] → GetRoomMappings store hid =
            SingleResponse.serverError (("failed to fetch room mappings").toList))) ∧
      (∀ m2, store (roomMapKey (getAlternateHotelID hid)) = Except.ok m2 →
          fetchRoomsForHotel store hid = Except.ok (parseRooms m2)) ∧
      (store (roomMapKey (getAlternateHotelID hid)) = Except.ok [] →
          fetchRoomsForHotel store hid = Except.ok [] ∧
          (¬ hid = [] → GetRoomMappings store hid = SingleResponse.ok []))) := by
  constructor
  · intro m hp hm
    rw [fetchRooms_primary_ok hp, if_pos (List.length_pos.mpr hm)]
  · intro hpe
    have hfe : fetchRoomsForHotel store hid = fetchFallback store hid := by
      rcases hpe with hp | ⟨e, hp⟩
      · rw [fetchRooms_primary_ok hp]
        rw [if_neg (by simp)]
      · exact fetchRooms_primary_error hp
    refine ⟨?_, ?_, ?_⟩
    · intro e2 hf2
      have hfr : fetchRoomsForHotel store hid = Except.error e2 := by
        rw [hfe]
        exact fetchFallback_error hf2
      refine ⟨hfr, fun hne => ?_⟩
      rw [getRoom_ne_nil hne, hfr]
    · intro m2 hf2
      rw [hfe]
      exact fetchFallback_ok hf2
    · intro hf2
      have hfr : fetchRoomsForHotel store hid = Except.ok [] := by
        rw [hfe, fetchFallback_ok hf2]
        rfl
      refine ⟨hfr, fun hne => ?_⟩
      rw [getRoom_ne_nil hne, hfr]

/-- Witness for the amended claim C3 at a concrete store. -/
theorem fetch_error_paths_witness :
    storeA (roomMapKey (("99").toList)) = Except.ok [] ∧
    storeA (roomMapKey (getAlternateHotelID (("99").toList))) = Except.ok [] ∧
    fetchRoomsForHotel storeA (("99").toList) = Except.ok [] :=
  ⟨by decide, by decide,
   (((fetch_error_paths storeA (("99").toList)).2 (Or.inl (by decide))).2.2
     (by decide)).1⟩

/-- Claim C1: for every valid batch body the handler deduplicates
by exact string equality keeping first occurrences and dropping
empty strings (the loop agrees with the recursive contract), issues
exactly one pipelined round-trip holding, per surviving identifier,
the HGetAll of its primary key followed by that of its alternate
key, and answers with exactly one entry per distinct non-empty
input identifier, keyed as supplied. -/
theorem batch_single_roundtrip (store : Store) (ids : List GoStr)
    (h1 : 1 ≤ ids.length) (h2 : ids.length ≤ 100) :
    ∃ bOk, GetRoomMappingsBatch store (some ids) = Except.ok bOk ∧
      bOk.trace = [(dedupFirstSpec ids).flatMap
        (fun hid => [roomMapKey hid, roomMapKey (getAlternateHotelID hid)])] ∧
      bOk.hotels.map Prod.fst = dedupFirstSpec ids ∧
      dedupStringsInPlace ids = dedupFirstSpec ids ∧
      (dedupFirstSpec ids).Nodup ∧
      List.Sublist (dedupFirstSpec ids) ids ∧
      (∀ x, x ∈ dedupFirstSpec ids ↔ x ∈ ids ∧ x ≠ []) := by
  refine ⟨_, getBatch_ok store ids h1 h2, ?_, ?_, dedup_eq_spec ids,
    dedupFirstSpec_nodup ids, dedupFirstSpec_sublist ids, mem_dedupFirstSpec ids⟩
  · show [batchPipelineKeys (dedupStringsInPlace ids)] = _
    rw [dedup_eq_spec ids]
    rfl
  · show ((dedupStringsInPlace ids).map _).map Prod.fst = _
    rw [dedup_eq_spec ids, List.map_map]
    have hcomp : (Prod.fst ∘ fun hid : GoStr =>
        (hid, reconcileSpec (store (roomMapKey hid))
          (store (roomMapKey (getAlternateHotelID hid))))) = id := rfl
    rw [hcomp, List.map_id]

/-- Witness for claim C1 at the input of the specification's test:
two occurrences of the first identifier and a marked second one. -/
theorem batch_single_roundtrip_witness :
    1 ≤ ([("H1").toList, ("H1").toList, ("#H2").toList] : List GoStr).length ∧
    ([("H1").toList, ("H1").toList, ("#H2").toList] : List GoStr).length ≤ 100 ∧
    ∃ bOk, GetRoomMappingsBatch storeA
        (some [("H1").toList, ("H1").toList, ("#H2").toList]) = Except.ok bOk ∧
      bOk.trace = [(dedupFirstSpec [("H1").toList, ("H1").toList, ("#H2").toList]).flatMap
        (fun hid => [roomMapKey hid, roomMapKey (getAlternateHotelID hid)])] ∧
      bOk.hotels.map Prod.fst = dedupFirstSpec [("H1").toList, ("H1").toList, ("#H2").toList] ∧
      dedupStringsInPlace [("H1").toList, ("H1").toList, ("#H2").toList] =
        dedupFirstSpec [("H1").toList, ("H1").toList, ("#H2").toList] ∧
      (dedupFirstSpec [("H1").toList, ("H1").toList, ("#H2").toList]).Nodup ∧
      List.Sublist (dedupFirstSpec [("H1").toList, ("H1").toList, ("#H2").toList])
        [("H1").toList, ("H1").toList, ("#H2").toList] ∧
      (∀ x, x ∈ dedupFirstSpec [("H1").toList, ("H1").toList, ("#H2").toList] ↔
        x ∈ ([("H1").toList, ("H1").toList, ("#H2").toList] : List GoStr) ∧ x ≠ []) :=
  ⟨by decide, by decide,
   batch_single_roundtrip storeA [("H1").toList, ("H1").toList, ("#H2").toList]
     (by decide) (by decide)⟩

/-- Claim C2: in the batch path each deduplicated identifier's entry
is computed from its own two sub-results of the one pipeline
execution: a failed or empty primary sub-result falls back to the
alternate sub-result of the same round-trip (the trace stays a
single round-trip), a failed or empty alternate then yields the
empty room list, a non-empty successful map is parsed; every entry
is a plain room list, so no per-identifier error is ever encoded. -/
theorem batch_fallback_merge (store : Store) (ids : List GoStr)
    (h1 : 1 ≤ ids.length) (h2 : ids.length ≤ 100) :
    ∃ bOk, GetRoomMappingsBatch store (some ids) = Except.ok bOk ∧
      bOk.trace.length = 1 ∧
      bOk.hotels = (dedupStringsInPlace ids).map (fun hid =>
        (hid, reconcileSpec (store (roomMapKey hid))
          (store (roomMapKey (getAlternateHotelID hid))))) ∧
      (∀ (e : GoStr) (f : StoreReply), reconcileSpec (Except.error e) f =
        reconcileFallbackSpec f) ∧
      (∀ f : StoreReply, reconcileSpec (Except.ok []) f = reconcileFallbackSpec f) ∧
      (∀ m f, m ≠ [] → reconcileSpec (Except.ok m) f = parseRooms m) ∧
      (∀ e : GoStr, reconcileFallbackSpec (Except.error e) = []) ∧
      reconcileFallbackSpec (Except.ok []) = [] ∧
      (∀ m, m ≠ [] → reconcileFallbackSpec (Except.ok m) = parseRooms m) := by
  refine ⟨_, getBatch_ok store ids h1 h2, rfl, rfl, ?_, ?_, ?_, ?_, ?_, ?_⟩
  · intro e f
    rw [reconcileSpec]
  · intro f
    rw [reconcileSpec, if_pos (show ([] : FieldMap).length = 0 from rfl)]
  · intro m f hm
    rw [reconcileSpec, if_neg (by simpa using hm)]
  · intro e
    rw [reconcileFallbackSpec]
  · rw [reconcileFallbackSpec, if_pos (show ([] : FieldMap).length = 0 from rfl)]
  · intro m hm
    rw [reconcileFallbackSpec, if_neg (by simpa using hm)]

/-- Witness for claim C2 at a concrete store and batch. -/
theorem batch_fallback_merge_witness :
    1 ≤ ([("42").toList, ("99").toList] : List GoStr).length ∧
    ([("42").toList, ("99").toList] : List GoStr).length ≤ 100 ∧
    ∃ bOk, GetRoomMappingsBatch storeA (some [("42").toList, ("99").toList]) =
        Except.ok bOk ∧
      bOk.trace.length = 1 ∧
      bOk.hotels = (dedupStringsInPlace [("42").toList, ("99").toList]).map (fun hid =>
        (hid, reconcileSpec (storeA (roomMapKey hid))
          (storeA (roomMapKey (getAlternateHotelID hid))))) ∧
      (∀ (e : GoStr) (f : StoreReply), reconcileSpec (Except.error e) f =
        reconcileFallbackSpec f) ∧
      (∀ f : StoreReply, reconcileSpec (Except.ok []) f = reconcileFallbackSpec f) ∧
      (∀ m f, m ≠ [] → reconcileSpec (Except.ok m) f = parseRooms m) ∧
      (∀ e : GoStr, reconcileFallbackSpec (Except.error e) = []) ∧
      reconcileFallbackSpec (Except.ok []) = [] ∧
      (∀ m, m ≠ [] → reconcileFallbackSpec (Except.ok m) = parseRooms m) :=
  ⟨by decide, by decide,
   batch_fallback_merge storeA [("42").toList, ("99").toList] (by decide) (by decide)⟩

/-- Claim C6: a missing, empty or over-cap identifier array is
rejected with a client error whose computation never consults the
store (the result is identical under every store), an in-range
array is never rejected, and empty-string identifiers inside an
in-range array are silently discarded by deduplication rather than
rejected. -/
theorem batch_validation (store store2 : Store) :
    (GetRoomMappingsBatch store none =
        Except.error (("invalid request: hotel_ids array is required").toList) ∧
      GetRoomMappingsBatch store none = GetRoomMappingsBatch store2 none) ∧
    (∀ ids : List GoStr, ids.length = 0 ∨ 100 < ids.length →
        GetRoomMappingsBatch store (some ids) =
          Except.error (("hotel_ids must contain 1..100 items").toList) ∧
        GetRoomMappingsBatch store (some ids) = GetRoomMappingsBatch store2 (some ids)) ∧
    (∀ ids : List GoStr, 1 ≤ ids.length → ids.length ≤ 100 →
        ∃ bOk, GetRoomMappingsBatch store (some ids) = Except.ok bOk ∧
          bOk.hotels.map Prod.fst = dedupFirstSpec ids ∧
          [] ∉ bOk.hotels.map Prod.fst) := by
  have herr : ∀ (st : Store) (ids : List GoStr), ids.length = 0 ∨ 100 < ids.length →
      GetRoomMappingsBatch st (some ids) =
        Except.error (("hotel_ids must contain 1..100 items").toList) := by
    intro st ids hv
    have hcond : (ids.length = 0 || 100 < ids.length) = true := by
      simp only [Bool.or_eq_true, decide_eq_true_eq]
      exact hv
    simp only [GetRoomMappingsBatch]
    rw [if_pos hcond]
  refine ⟨⟨rfl, rfl⟩, ?_, ?_⟩
  · intro ids hv
    rw [herr store ids hv, herr store2 ids hv]
    exact ⟨rfl, rfl⟩
  · intro ids h1 h2
    obtain ⟨bOk, hok, _, hkeys, _, _, _, hmem⟩ := batch_single_roundtrip store ids h1 h2
    refine ⟨bOk, hok, hkeys, ?_⟩
    rw [hkeys]
    intro habs
    exact ((hmem []).mp habs).2 rfl

/-- Witness for claim C6 at an over-cap input and an in-range input
holding an empty-string identifier. -/
theorem batch_validation_witness :
    ((List.replicate 101 (("42").toList) : List GoStr).length = 0 ∨
      100 < (List.replicate 101 (("42").toList) : List GoStr).length) ∧
    GetRoomMappingsBatch storeA (some (List.replicate 101 (("42").toList))) =
      Except.error (("hotel_ids must contain 1..100 items").toList) ∧
    (1 ≤ ([("42").toList, []] : List GoStr).length ∧
      ([("42").toList, []] : List GoStr).length ≤ 100 ∧
      ∃ bOk, GetRoomMappingsBatch storeA (some [("42").toList, []]) = Except.ok bOk ∧
        bOk.hotels.map Prod.fst = dedupFirstSpec [("42").toList, []] ∧
        [] ∉ bOk.hotels.map Prod.fst) :=
  ⟨Or.inr (by decide),
   ((batch_validation storeA storeC3).2.1 (List.replicate 101 (("42").toList))
     (Or.inr (by decide))).1,
   by decide, by decide,
   (batch_validation storeA storeC3).2.2 [("42").toList, []] (by decide) (by decide)⟩

end RoomMapping
